import Mathlib

/-!
Shallow embedding of `app/chunking/strategies.py` (doc-qa-slack-bot):
the size-based splitter, `BasicChunkingStrategy`, and the LLM-assisted
`SmartChunkingStrategy`, together with theorems settling the spec claims.

Python strings are modelled as `List Char`; Python `int` values occurring
here are never negative, so `Nat` is used with care taken at each
subtraction site.  LLM calls are modelled as pure functions returning
`Except String LLMResponse`; a raised exception is the `.error` case.
-/

namespace DocQA

/-- Python strings as character lists. -/
abbrev Str := List Char

def strL (s : String) : Str := s.toList

/-- The six ASCII whitespace characters recognised by Python's `str.strip()`
and by the regex class `\s` (the documents in the claims are ASCII, so the
extra Unicode whitespace accepted by Python is not modelled). -/
def pyIsSpace (c : Char) : Bool :=
  c = ' ' || c = '\t' || c = '\n' || c = '\r' || c = '\x0b' || c = '\x0c'

/-- Python `str.strip()`: drop whitespace from both ends. -/
def pyStrip (s : Str) : Str :=
  ((s.dropWhile pyIsSpace).reverse.dropWhile pyIsSpace).reverse

/-- Python slice `t[a:b]` (for `0 ≤ a ≤ b`). -/
def seg (t : Str) (a b : Nat) : Str := (t.drop a).take (b - a)

/-- Python `text.rfind(" ", a, b)`: the largest index `i` with
`a ≤ i < b` and `t[i] = ' '`, or `none` (Python returns `-1`). -/
def pyRfindSpace (t : Str) (a b : Nat) : Option Nat :=
  (List.range t.length).reverse.find?
    (fun i => decide (a ≤ i ∧ i < b ∧ t.get? i = some ' '))

/-- The chunk end position computed by one iteration of
`BasicChunkingStrategy._split_text_with_overlap`:
`end = min(start + max_chunk_size, len(text))`, then if `end < len(text)`
and the last space in `[start, end)` lies strictly beyond
`start + max_chunk_size * 0.8`, move `end` back to that space.
Python evaluates `max_chunk_size * 0.8` in floating point; for every size
used in this file the product rounds to the exact rational value, so the
comparison is rendered exactly as `5 * ls > 5 * start + 4 * m`. -/
def chunkEnd (m : Nat) (t : Str) (start : Nat) : Nat :=
  let e0 := min (start + m) t.length
  if e0 < t.length then
    match pyRfindSpace t start e0 with
    | some ls => if 5 * start + 4 * m < 5 * ls then ls else e0
    | none => e0
  else e0

/-- The `while start < len(text)` loop of `_split_text_with_overlap`,
with explicit fuel.  When `0 < m` the cursor strictly advances each
iteration, so `t.length + 1` units of fuel always suffice (the source
diverges when `max_chunk_size = 0`; no claim concerns that degenerate
configuration). -/
def splitLoopF (m o : Nat) (t : Str) : Nat → Nat → List Str
  | 0, _ => []
  | fuel + 1, start =>
    if start < t.length then
      let e := chunkEnd m t start
      let piece := pyStrip (seg t start e)
      let rest := splitLoopF m o t fuel (max (start + m - o) e)
      if piece = [] then rest else piece :: rest
    else []

/-- `BasicChunkingStrategy._split_text_with_overlap(text)` with
`m = max_chunk_size`, `o = overlap_size`. -/
def split_text_with_overlap (m o : Nat) (t : Str) : List Str :=
  splitLoopF m o t (t.length + 1) 0

/-- `pattern` is a prefix of `t`. -/
def leadsWith : Str → Str → Bool
  | [], _ => true
  | _ :: _, [] => false
  | a :: as, b :: bs => a = b && leadsWith as bs

/-- `pattern` occurs as a contiguous substring of `t`. -/
def occursIn (p : Str) : Str → Bool
  | [] => leadsWith p []
  | c :: ts => leadsWith p (c :: ts) || occursIn p ts

/-- ASCII lowercasing, as done by `re.IGNORECASE` on the ASCII texts of
the claims. -/
def pyLowerChar (c : Char) : Char :=
  if 'A' ≤ c ∧ c ≤ 'Z' then Char.ofNat (c.toNat + 32) else c

def pyLower (t : Str) : Str := t.map pyLowerChar

def questionKeywords : List Str :=
  [strL "what", strL "how", strL "why", strL "when", strL "where", strL "who"]

/-- `_contains_question` (identical in both strategies):
`re.search(r"\?|what|how|why|when|where|who", text, re.IGNORECASE)`.
The regex is an alternation of literals, so it succeeds iff `?` occurs in
the text (case has no effect on `?`) or one of the keywords occurs as a
(not necessarily whole-word) substring of the lowercased text. -/
def contains_question (text : Str) : Bool :=
  text.contains '?' || questionKeywords.any (fun k => occursIn k (pyLower text))

/-- Modelled from the spec: `ChunkMetadata` lives in `app/chunking/models.py`,
which is not under `src/`.  Fields and defaults follow spec §3: the
provenance identifiers, `overlap_before`/`overlap_after` defaulting to `0`
(the constructor call sites omit them for first/last/semantic chunks), and
`total_chunks` unset until the backfill pass. -/
structure ChunkMetadata where
  source_document_id : Str
  source_tab : Option Str := none
  source_tab_id : Option Str := none
  source_section : Str
  chunk_index : Nat
  start_position : Nat
  end_position : Nat
  overlap_before : Nat := 0
  overlap_after : Nat := 0
  heading_level : Nat
  contains_question : Bool
  estimated_tokens : Nat
  total_chunks : Option Nat := none
deriving DecidableEq, Repr

/-- Modelled from the spec: `Chunk` of `app/chunking/models.py` (not under
`src/`): content plus metadata, with `summary` absent unless backfilled
(spec §3).  The source constructs every chunk with a metadata object, so
`metadata` is a plain field here and the defensive `if chunk.metadata:`
test in the source is always true. -/
structure Chunk where
  content : Str
  metadata : ChunkMetadata
  summary : Option Str := none
deriving DecidableEq, Repr

/-- Modelled from the spec: `DocumentSection` of `app/google_docs/parser.py`
(not under `src/`): a title, nesting level, optional tab title/id, the raw
`content` attribute used by the smart strategy's index estimate, and the
full concatenated text returned by `get_full_text()` (spec §6). -/
structure DocumentSection where
  title : Str
  level : Nat
  tab_title : Option Str := none
  tab_id : Option Str := none
  content : Str
  full_text : Str

def DocumentSection.get_full_text (s : DocumentSection) : Str := s.full_text

/-- Modelled from the spec: `ParsedDocument` of `app/google_docs/parser.py`
(not under `src/`): a stable identifier plus the ordered section list. -/
structure ParsedDocument where
  document_id : Str
  sections : List DocumentSection

/-- Response of the LLM backend (spec §6): `success` flag plus optional
content; `content = none` models Python `None`. -/
structure LLMResponse where
  success : Bool
  content : Option Str
deriving DecidableEq, Repr

/-- Python truthiness of `response.content`: not `None` and non-empty. -/
def contentTruthy : Option Str → Bool
  | none => false
  | some s => !s.isEmpty

def optStr (o : Option Str) : Str := o.getD []

/-- The LLM backend collaborator (`app/llm/base.LLMProvider`, not under
`src/`): both operations are modelled as pure functions of their
arguments; a raised exception is the `.error` case of `Except`. -/
structure LLMProvider where
  generate_response : Str → Except String LLMResponse
  summarize : Str → Nat → Except String LLMResponse

/-- `BasicChunkingStrategy.__init__` configuration. -/
structure BasicChunkingStrategy where
  max_chunk_size : Nat := 1000
  overlap_size : Nat := 100
  respect_sections : Bool := true

/-- The body of `for i, piece in enumerate(chunk_pieces)` in
`BasicChunkingStrategy._chunk_section`: one chunk per piece, with
`chunk_index = start_chunk_index + i`, `start_position = 0` (the source
comment says "Will be updated later" but no later update exists in this
file), `end_position = len(piece)`, and overlap metadata `overlap_size`
for every piece except the first (before) / last (after).  `n` is
`len(chunk_pieces)` and `i` the running enumeration index. -/
def basicPieceChunks (b : BasicChunkingStrategy) (sec : DocumentSection)
    (document_id : Str) (start_chunk_index : Nat)
    (tab_name tab_id : Option Str) (n : Nat) : List Str → Nat → List Chunk
  | [], _ => []
  | piece :: rest, i =>
    { content := piece
      metadata := {
        source_document_id := document_id
        source_tab := tab_name
        source_tab_id := tab_id
        source_section := sec.title
        chunk_index := start_chunk_index + i
        start_position := 0
        end_position := piece.length
        overlap_before := if 0 < i then b.overlap_size else 0
        overlap_after := if i < n - 1 then b.overlap_size else 0
        heading_level := sec.level
        contains_question := contains_question piece
        estimated_tokens := piece.length / 4 } } ::
      basicPieceChunks b sec document_id start_chunk_index tab_name tab_id n rest (i + 1)

/-- `BasicChunkingStrategy._chunk_section`. -/
def BasicChunkingStrategy.chunk_section (b : BasicChunkingStrategy)
    (sec : DocumentSection) (document_id : Str) (start_chunk_index : Nat)
    (tab_name tab_id : Option Str) : List Chunk :=
  let section_text := sec.get_full_text
  if pyStrip section_text = [] then []
  else if section_text.length ≤ b.max_chunk_size then
    [{ content := section_text
       metadata := {
         source_document_id := document_id
         source_tab := tab_name
         source_tab_id := tab_id
         source_section := sec.title
         chunk_index := start_chunk_index
         start_position := 0
         end_position := section_text.length
         heading_level := sec.level
         contains_question := contains_question section_text
         estimated_tokens := section_text.length / 4 } }]
  else
    let chunk_pieces := split_text_with_overlap b.max_chunk_size b.overlap_size section_text
    basicPieceChunks b sec document_id start_chunk_index tab_name tab_id
      chunk_pieces.length chunk_pieces 0

/-- The section loop of `BasicChunkingStrategy.chunk_document`: chunk each
section in order, advancing the running `chunk_index` by the number of
chunks the section contributed (the tqdm progress bar is presentation
only). -/
def basicChunkSections (b : BasicChunkingStrategy) (document_id : Str) :
    List DocumentSection → Nat → List Chunk
  | [], _ => []
  | s :: rest, chunk_index =>
    let section_chunks := b.chunk_section s document_id chunk_index s.tab_title s.tab_id
    section_chunks ++ basicChunkSections b document_id rest (chunk_index + section_chunks.length)

/-- The final pass of both strategies: backfill `total_chunks` on every
chunk with the final count. -/
def setTotalChunks (chunks : List Chunk) : List Chunk :=
  chunks.map (fun c => { c with metadata := { c.metadata with total_chunks := some chunks.length } })

/-- `BasicChunkingStrategy.chunk_document`. -/
def BasicChunkingStrategy.chunk_document (b : BasicChunkingStrategy)
    (doc : ParsedDocument) : List Chunk :=
  setTotalChunks (basicChunkSections b doc.document_id doc.sections 0)

/-- `SmartChunkingStrategy.__init__` configuration plus the injected
backend. -/
structure SmartChunkingStrategy where
  llm_provider : LLMProvider
  max_chunk_size : Nat := 1500
  overlap_size : Nat := 150
  use_summaries : Bool := true

/-- The owned fallback instance built in `SmartChunkingStrategy.__init__`
(`respect_sections` keeps its default `True`). -/
def SmartChunkingStrategy.basic_strategy (st : SmartChunkingStrategy) :
    BasicChunkingStrategy :=
  { max_chunk_size := st.max_chunk_size, overlap_size := st.overlap_size }

def isDigitChar (c : Char) : Bool := '0' ≤ c && c ≤ '9'

/-- Maximal digit runs of a string, accumulator form:
`re.findall(r"\d+", s)`.  `acc` holds the current run reversed. -/
def digitRunsAux : Str → Str → List Str
  | acc, [] => if acc = [] then [] else [acc.reverse]
  | acc, c :: cs =>
    if isDigitChar c then digitRunsAux (c :: acc) cs
    else (if acc = [] then [] else [acc.reverse]) ++ digitRunsAux [] cs

def digitRuns (s : Str) : List Str := digitRunsAux [] s

/-- `int(...)` on a digit run. -/
def strToNat (s : Str) : Nat :=
  s.foldl (fun n c => 10 * n + (c.toNat - '0'.toNat)) 0

/-- Python `sorted` on the parsed break points (ascending; values are
plain numbers so stability is immaterial). -/
def insertSorted (a : Nat) : List Nat → List Nat
  | [] => [a]
  | b :: bs => if a ≤ b then a :: b :: bs else b :: insertSorted a bs

def sortNat (l : List Nat) : List Nat := l.foldr insertSorted []

/-- Index of the last `'\n'` in a list, if any. -/
def lastNewlineIdx : Str → Option Nat
  | [] => none
  | c :: cs =>
    match lastNewlineIdx cs with
    | some k => some (k + 1)
    | none => if c = '\n' then some 0 else none

/-- The scan of `re.finditer(r"\n\s*\n", text)` used by
`SmartChunkingStrategy._find_paragraph_breaks`, with fuel (each step
consumes at least one character, so `text.length + 1` suffices).  At a
`'\n'` the greedy `\s*` with backtracking matches through the last `'\n'`
of the maximal whitespace run that follows; matches are non-overlapping,
so scanning resumes after that final newline.  `i` is the absolute index
of the current position; each `match.start()` is recorded. -/
def paraScanF : Nat → Str → Nat → List Nat
  | 0, _, _ => []
  | _ + 1, [], _ => []
  | fuel + 1, c :: cs, i =>
    if c = '\n' then
      match lastNewlineIdx (cs.takeWhile pyIsSpace) with
      | some k => i :: paraScanF fuel (cs.drop (k + 1)) (i + k + 2)
      | none => paraScanF fuel cs (i + 1)
    else paraScanF fuel cs (i + 1)

/-- `SmartChunkingStrategy._find_paragraph_breaks`. -/
def find_paragraph_breaks (text : Str) : List Nat :=
  paraScanF (text.length + 1) text 0

/-- The prompt literal built by `_find_semantic_breaks` (the text is
truncated to its first 2000 characters with an ellipsis marker). -/
def semanticBreakPrompt (max_chunk_size : Nat) (text : Str) : Str :=
  strL "Analyze this text and identify good break points for chunking into semantic units.\n            \nText length: "
    ++ strL (toString text.length)
    ++ strL " characters\nTarget chunk size: "
    ++ strL (toString max_chunk_size)
    ++ strL " characters\n\nText:\n"
    ++ text.take 2000
    ++ (if 2000 < text.length then strL "..." else [])
    ++ strL "\n\nReturn positions (character indices) where natural breaks occur, such as:\n- Topic transitions\n- End of examples or lists  \n- Paragraph boundaries\n- Logical conclusion points\n\nReturn only numbers separated by commas, e.g.: 150, 450, 750"

/-- `SmartChunkingStrategy._find_semantic_breaks`.  On a successful
response with truthy content, every maximal digit run is parsed and kept
when strictly between `0` and `len(text)`, and the sorted list is
returned — even when it is empty.  The paragraph-break fallback is
reached only when the call raises (`.error`) or the response is
non-success / has falsy content. -/
def SmartChunkingStrategy.find_semantic_breaks (st : SmartChunkingStrategy)
    (text : Str) : List Nat :=
  match st.llm_provider.generate_response (semanticBreakPrompt st.max_chunk_size text) with
  | .ok response =>
    if response.success && contentTruthy response.content then
      sortNat ((digitRuns (optStr response.content)).filterMap (fun run =>
        let pos := strToNat run
        if 0 < pos ∧ pos < text.length then some pos else none))
    else find_paragraph_breaks text
  | .error _ => find_paragraph_breaks text

/-- The break-point loop of `SmartChunkingStrategy._split_at_break_points`:
act on a break point only when its distance from `start` exceeds
`max_chunk_size * 0.5` (exactly `m / 2`, so the integer test is
`m < 2 * (bp - start)`; when `bp < start` the Python difference is
negative and the test fails, matching truncated subtraction); on
acceptance emit the trimmed slice and restart at `max(0, bp - overlap)`,
which is truncated subtraction on `Nat`.  After the loop, the trailing
slice is emitted if non-empty after trimming. -/
def splitAtLoop (m o : Nat) (text : Str) : List Nat → Nat → List Str
  | [], start =>
    if start < text.length then
      let final_chunk := pyStrip (text.drop start)
      if final_chunk = [] then [] else [final_chunk]
    else []
  | bp :: rest, start =>
    if m < 2 * (bp - start) then
      let chunk := pyStrip (seg text start bp)
      if chunk = [] then splitAtLoop m o text rest (bp - o)
      else chunk :: splitAtLoop m o text rest (bp - o)
    else splitAtLoop m o text rest start

/-- `SmartChunkingStrategy._split_at_break_points`: with no break points,
delegate to the basic size splitter. -/
def split_at_break_points (m o : Nat) (text : Str) (break_points : List Nat) : List Str :=
  if break_points = [] then split_text_with_overlap m o text
  else splitAtLoop m o text break_points 0

/-- The body of `for i, chunk_text in enumerate(chunk_texts)` in
`_chunk_section_semantically`.  Note the asymmetries present in the
source: the metadata is computed from the untrimmed `chunk_text` while
the stored content is `chunk_text.strip()`, `source_tab_id` is not
passed (so it keeps its absent default), and no overlap metadata is
set. -/
def smartPieceChunks (sec : DocumentSection) (document_id : Str)
    (start_chunk_index : Nat) (tab_name : Option Str) : List Str → Nat → List Chunk
  | [], _ => []
  | chunk_text :: rest, i =>
    { content := pyStrip chunk_text
      metadata := {
        source_document_id := document_id
        source_tab := tab_name
        source_section := sec.title
        chunk_index := start_chunk_index + i
        start_position := 0
        end_position := chunk_text.length
        heading_level := sec.level
        contains_question := contains_question chunk_text
        estimated_tokens := chunk_text.length / 4 } } ::
      smartPieceChunks sec document_id start_chunk_index tab_name rest (i + 1)

/-- `SmartChunkingStrategy._chunk_section_semantically`. -/
def SmartChunkingStrategy.chunk_section_semantically (st : SmartChunkingStrategy)
    (sec : DocumentSection) (document_id : Str) (start_chunk_index : Nat)
    (tab_name tab_id : Option Str) : List Chunk :=
  let section_text := sec.get_full_text
  if pyStrip section_text = [] then []
  else if section_text.length ≤ st.max_chunk_size then
    st.basic_strategy.chunk_section sec document_id start_chunk_index tab_name tab_id
  else
    let break_points := st.find_semantic_breaks section_text
    let chunk_texts := split_at_break_points st.max_chunk_size st.overlap_size section_text break_points
    smartPieceChunks sec document_id start_chunk_index tab_name chunk_texts 0

/-- `SmartChunkingStrategy._generate_summary`: the local `prompt` built in
the source is dead code — the call passes the raw `content` to
`summarize(content, max_length=100)`.  On success with truthy content the
trimmed content is returned (possibly empty after trimming); any raised
exception or failed/falsy response yields `None`.  -/
def SmartChunkingStrategy.generate_summary (st : SmartChunkingStrategy)
    (content : Str) : Option Str :=
  match st.llm_provider.summarize content 100 with
  | .ok response =>
    if response.success && contentTruthy response.content then
      some (pyStrip (optStr response.content))
    else none
  | .error _ => none

/-- The per-chunk summarization step of `SmartChunkingStrategy.chunk_document`:
chunks of length ≤ 200 get the `asyncio.sleep(0)` placeholder (result
`None`); the `gather` result is assigned only when it is truthy, i.e. a
non-empty string.  The batch size 5 affects only scheduling; results are
reattached by position. -/
def SmartChunkingStrategy.summaryAssign (st : SmartChunkingStrategy) (c : Chunk) : Chunk :=
  let result : Option Str :=
    if 200 < c.content.length then st.generate_summary c.content else none
  match result with
  | some s => if s = [] then c else { c with summary := some s }
  | none => c

/-- The `if self.use_summaries:` block of `SmartChunkingStrategy.chunk_document`. -/
def SmartChunkingStrategy.applySummaries (st : SmartChunkingStrategy)
    (chunks : List Chunk) : List Chunk :=
  if st.use_summaries then chunks.map st.summaryAssign else chunks

/-- The batched section loop of `SmartChunkingStrategy.chunk_document`.
For the section at global position `p`, the starting index is the rough
estimate `sum(len(s.content) for s in sections[:p]) // 1000`; `acc`
carries that cumulative content length.  The batch size 3 partitions only
the concurrent dispatch; results are modelled in submission order (the
source collects `asyncio.as_completed` results in completion order
within a batch — flagged in spec §9; with each task's only suspension
point resolving immediately, submission order is the deterministic
rendering). -/
def SmartChunkingStrategy.sectionChunks (st : SmartChunkingStrategy)
    (document_id : Str) : List DocumentSection → Nat → List Chunk
  | [], _ => []
  | s :: rest, acc =>
    st.chunk_section_semantically s document_id (acc / 1000) s.tab_title s.tab_id ++
      st.sectionChunks document_id rest (acc + s.content.length)

/-- The `try:` body of `SmartChunkingStrategy.chunk_document` (steps 1–5 of
spec §4.6).  The only modelled exception sources are the two backend
operations, and both call sites sit inside local handlers
(`_find_semantic_breaks`, `_generate_summary`), so the body composes pure
steps in the `Except` monad without any fallible bind. -/
def SmartChunkingStrategy.chunk_document_body (st : SmartChunkingStrategy)
    (doc : ParsedDocument) : Except String (List Chunk) := do
  let all_chunks := st.sectionChunks doc.document_id doc.sections 0
  let all_chunks := st.applySummaries all_chunks
  pure (setTotalChunks all_chunks)

/-- `SmartChunkingStrategy.chunk_document`: the `try/except Exception`
around the body; any escaped exception falls back to running
`BasicChunkingStrategy` over the whole document. -/
def SmartChunkingStrategy.chunk_document (st : SmartChunkingStrategy)
    (doc : ParsedDocument) : List Chunk :=
  match st.chunk_document_body doc with
  | .ok chunks => chunks
  | .error _ => st.basic_strategy.chunk_document doc

/-! ### Concrete instances used by counterexamples and witnesses -/

/-- "The call fails (backend error, timeout, ... or the response reports
non-success)": the call raised, or returned with `success = false`. -/
def failResp : Except String LLMResponse → Prop
  | .error _ => True
  | .ok r => r.success = false

/-- A backend that raises on every call. -/
def constFailProvider : LLMProvider :=
  { generate_response := fun _ => .error "LLM unavailable"
    summarize := fun _ _ => .error "LLM unavailable" }

/-- A backend whose completion succeeds but whose content holds no digit
run. -/
def noDigitProvider : LLMProvider :=
  { generate_response := fun _ =>
      .ok { success := true, content := some (strL "no numeric positions here") }
    summarize := fun _ _ => .error "LLM unavailable" }

/-- A backend whose summarization succeeds with whitespace-only content. -/
def wsSummaryProvider : LLMProvider :=
  { generate_response := fun _ => .error "LLM unavailable"
    summarize := fun _ _ => .ok { success := true, content := some (strL " ") } }

/-- A backend whose summarization succeeds with substantial content. -/
def okSummaryProvider : LLMProvider :=
  { generate_response := fun _ => .error "LLM unavailable"
    summarize := fun _ _ => .ok { success := true, content := some (strL " A summary. ") } }

def secA10 : DocumentSection :=
  { title := strL "S", level := 1, tab_title := some (strL "Tab"),
    tab_id := some (strL "T1"), content := strL "aaaaaaaaaa",
    full_text := strL "aaaaaaaaaa" }

def docA10 : ParsedDocument := { document_id := strL "doc", sections := [secA10] }

def secHello : DocumentSection :=
  { title := strL "Greeting", level := 1, content := strL "Hello",
    full_text := strL "Hello" }

def docHello2 : ParsedDocument :=
  { document_id := strL "doc", sections := [secHello, secHello] }

def secHelloWorld : DocumentSection :=
  { title := strL "Intro", level := 2, content := strL "Hello world",
    full_text := strL "Hello world" }

def docHelloWorld : ParsedDocument :=
  { document_id := strL "doc1", sections := [secHelloWorld] }

def smartFail4 : SmartChunkingStrategy :=
  { llm_provider := constFailProvider, max_chunk_size := 4, overlap_size := 1 }

def basic4 : BasicChunkingStrategy := { max_chunk_size := 4, overlap_size := 1 }

def smartFailDefault : SmartChunkingStrategy := { llm_provider := constFailProvider }

def basicDefault : BasicChunkingStrategy := {}

def smartNoDigit : SmartChunkingStrategy := { llm_provider := noDigitProvider }

def smartWS : SmartChunkingStrategy := { llm_provider := wsSummaryProvider }

def smartOK : SmartChunkingStrategy := { llm_provider := okSummaryProvider }

def metaEx : ChunkMetadata :=
  { source_document_id := strL "doc", source_section := strL "S",
    chunk_index := 0, start_position := 0, end_position := 201,
    heading_level := 1, contains_question := false, estimated_tokens := 50 }

/-- A chunk whose content exceeds the 200-character summarization
threshold. -/
def chunk201 : Chunk := { content := List.replicate 201 'a', metadata := metaEx }

/-- A chunk below the 200-character summarization threshold. -/
def chunk150 : Chunk :=
  { content := List.replicate 150 'a',
    metadata := { metaEx with end_position := 150, estimated_tokens := 37 } }

/-- Fallback value for list indexing in witness statements. -/
def chunkDflt : Chunk := { content := [], metadata := metaEx }

/-- Written from the spec's words (claim C2): "the ordered concatenation
of chunk contents (minus the declared overlap regions)" — the first chunk
whole, every later chunk with its declared `overlap_before = overlap_size`
leading characters removed. -/
def reconcatOverlap (o : Nat) : List Str → Str
  | [] => []
  | c :: cs => c ++ (cs.map (fun p => p.drop o)).flatten

/-! ### Supporting lemmas: strings, stripping, slicing -/

theorem dropWhile_eq_self_of_all {s : Str} (h : ∀ c ∈ s, pyIsSpace c = false) :
    s.dropWhile pyIsSpace = s := by
  cases s with
  | nil => rfl
  | cons c cs =>
    simp [List.dropWhile, h c (by simp)]

theorem pyStrip_eq_self {s : Str} (h : ∀ c ∈ s, pyIsSpace c = false) :
    pyStrip s = s := by
  unfold pyStrip
  rw [dropWhile_eq_self_of_all h, dropWhile_eq_self_of_all (by simpa using h),
    List.reverse_reverse]

theorem pyStrip_length_le (s : Str) : (pyStrip s).length ≤ s.length := by
  unfold pyStrip
  calc ((s.dropWhile pyIsSpace).reverse.dropWhile pyIsSpace).reverse.length
      = ((s.dropWhile pyIsSpace).reverse.dropWhile pyIsSpace).length := by
        simp
    _ ≤ (s.dropWhile pyIsSpace).reverse.length := (List.dropWhile_sublist _).length_le
    _ = (s.dropWhile pyIsSpace).length := by simp
    _ ≤ s.length := (List.dropWhile_sublist _).length_le

theorem seg_length_le (t : Str) (a b : Nat) : (seg t a b).length ≤ b - a := by
  unfold seg
  calc ((t.drop a).take (b - a)).length ≤ b - a := by
        simp [List.length_take]

theorem seg_mem {t : Str} {a b : Nat} {c : Char} (h : c ∈ seg t a b) : c ∈ t := by
  unfold seg at h
  exact (List.drop_sublist a t).mem ((List.take_sublist _ _).mem h)

theorem seg_length_of_le {t : Str} {a b : Nat} (hb : b ≤ t.length) :
    (seg t a b).length = b - a := by
  unfold seg
  simp [List.length_take, List.length_drop]
  omega

theorem seg_append_drop (t : Str) (a m : Nat) :
    seg t a (a + m) ++ t.drop (a + m) = t.drop a := by
  unfold seg
  have h1 : t.drop (a + m) = (t.drop a).drop m := by
    rw [List.drop_drop]
  rw [h1]
  have h2 : a + m - a = m := by omega
  rw [h2, List.take_append_drop]

theorem seg_eq_drop_of_le {t : Str} {a b : Nat} (hb : t.length ≤ b) :
    seg t a b = t.drop a := by
  unfold seg
  apply List.take_of_length_le
  simp [List.length_drop]
  omega

/-! ### Supporting lemmas: `pyRfindSpace` and `chunkEnd` -/

theorem pyRfindSpace_some {t : Str} {a b i : Nat}
    (h : pyRfindSpace t a b = some i) :
    a ≤ i ∧ i < b ∧ t.get? i = some ' ' := by
  have := List.find?_some h
  simpa using of_decide_eq_true this

theorem pyRfindSpace_none_of_nospace {t : Str} {a b : Nat}
    (h : ∀ c ∈ t, pyIsSpace c = false) : pyRfindSpace t a b = none := by
  cases hf : pyRfindSpace t a b with
  | none => rfl
  | some i =>
    exfalso
    have hsp := (pyRfindSpace_some hf).2.2
    have hmem : (' ' : Char) ∈ t := List.get?_mem hsp
    have := h ' ' hmem
    simp [pyIsSpace] at this

theorem chunkEnd_le (m : Nat) (t : Str) (s : Nat) : chunkEnd m t s ≤ s + m := by
  unfold chunkEnd
  by_cases h0 : min (s + m) t.length < t.length
  · simp only [h0, if_true]
    cases hf : pyRfindSpace t s (min (s + m) t.length) with
    | none => simp [Nat.min_le_left]
    | some ls =>
      by_cases hc : 5 * s + 4 * m < 5 * ls
      · have := (pyRfindSpace_some hf).2.1
        simp only [hc, if_true]
        omega
      · simp [hc, Nat.min_le_left]
  · simp [h0, Nat.min_le_left]

theorem chunkEnd_le_len (m : Nat) (t : Str) (s : Nat) : chunkEnd m t s ≤ t.length := by
  unfold chunkEnd
  by_cases h0 : min (s + m) t.length < t.length
  · simp only [h0, if_true]
    cases hf : pyRfindSpace t s (min (s + m) t.length) with
    | none => simp [Nat.min_le_right]
    | some ls =>
      by_cases hc : 5 * s + 4 * m < 5 * ls
      · have := (pyRfindSpace_some hf).2.1
        simp only [hc, if_true]
        omega
      · simp [hc, Nat.min_le_right]
  · simp [h0, Nat.min_le_right]

theorem chunkEnd_gt {m : Nat} {t : Str} {s : Nat}
    (h1 : s < t.length) (h2 : 0 < m) : s < chunkEnd m t s := by
  unfold chunkEnd
  have hmin : s < min (s + m) t.length := by omega
  by_cases h0 : min (s + m) t.length < t.length
  · simp only [h0, if_true]
    cases hf : pyRfindSpace t s (min (s + m) t.length) with
    | none => simpa using hmin
    | some ls =>
      by_cases hc : 5 * s + 4 * m < 5 * ls
      · simp only [hc, if_true]
        omega
      · simpa [hc] using hmin
  · simpa [h0] using hmin

theorem chunkEnd_nospace {m : Nat} {t : Str} {s : Nat}
    (h : ∀ c ∈ t, pyIsSpace c = false) :
    chunkEnd m t s = min (s + m) t.length := by
  unfold chunkEnd
  simp only [pyRfindSpace_none_of_nospace h]
  by_cases h0 : min (s + m) t.length < t.length <;> simp [h0]

/-! ### Supporting lemmas: the size splitter -/

theorem splitLoopF_eq_nil {m o : Nat} {t : Str} {start : Nat}
    (h : t.length ≤ start) : ∀ fuel, splitLoopF m o t fuel start = [] := by
  intro fuel
  cases fuel with
  | zero => rfl
  | succ n => simp [splitLoopF, Nat.not_lt.mpr h]

theorem splitLoopF_length_le {m o : Nat} {t : Str} :
    ∀ (fuel start : Nat), ∀ p ∈ splitLoopF m o t fuel start, p.length ≤ m := by
  intro fuel
  induction fuel with
  | zero => intro start p hp; simp [splitLoopF] at hp
  | succ n ih =>
    intro start p hp
    simp only [splitLoopF] at hp
    by_cases hs : start < t.length
    · rw [if_pos hs] at hp
      have hple : (pyStrip (seg t start (chunkEnd m t start))).length ≤ m := by
        have h1 := pyStrip_length_le (seg t start (chunkEnd m t start))
        have h2 := seg_length_le t start (chunkEnd m t start)
        have h3 := chunkEnd_le m t start
        omega
      by_cases hpz : pyStrip (seg t start (chunkEnd m t start)) = []
      · rw [if_pos hpz] at hp
        exact ih _ p hp
      · rw [if_neg hpz] at hp
        rcases List.mem_cons.mp hp with h | h
        · rw [h]; exact hple
        · exact ih _ p h
    · rw [if_neg hs] at hp
      simp at hp

theorem split_text_with_overlap_length_le (m o : Nat) (t : Str) :
    ∀ p ∈ split_text_with_overlap m o t, p.length ≤ m :=
  splitLoopF_length_le (t.length + 1) 0

theorem splitLoopF_flatten_nospace {m o : Nat} {t : Str}
    (hm : 0 < m) (hn : ∀ c ∈ t, pyIsSpace c = false) :
    ∀ (fuel start : Nat), t.length ≤ start + fuel →
      (splitLoopF m o t fuel start).flatten = t.drop start := by
  intro fuel
  induction fuel with
  | zero =>
    intro start hle
    have h : t.length ≤ start := by omega
    simp [splitLoopF, List.drop_eq_nil_of_le h]
  | succ n ih =>
    intro start hle
    simp only [splitLoopF]
    by_cases hs : start < t.length
    · rw [if_pos hs]
      have hstrip : pyStrip (seg t start (chunkEnd m t start)) = seg t start (chunkEnd m t start) :=
        pyStrip_eq_self (fun c hc => hn c (seg_mem hc))
      have hegt : start < chunkEnd m t start := chunkEnd_gt hs hm
      have hel : chunkEnd m t start ≤ t.length := chunkEnd_le_len m t start
      have hpne : seg t start (chunkEnd m t start) ≠ [] := by
        have hlen : (seg t start (chunkEnd m t start)).length = chunkEnd m t start - start :=
          seg_length_of_le hel
        intro hcon
        rw [hcon] at hlen
        simp at hlen
        omega
      rw [hstrip, if_neg hpne, List.flatten_cons]
      have hce := chunkEnd_nospace (m := m) (s := start) hn
      by_cases hfit : start + m ≤ t.length
      · have he : chunkEnd m t start = start + m := by
          rw [hce]; omega
        have hmax : max (start + m - o) (chunkEnd m t start) = start + m := by
          rw [he]; exact Nat.max_eq_right (Nat.sub_le _ _)
        rw [hmax, ih (start + m) (by omega), he, seg_append_drop]
      · have he : chunkEnd m t start = t.length := by
          rw [hce]; omega
        have hrest : splitLoopF m o t n (max (start + m - o) (chunkEnd m t start)) = [] := by
          apply splitLoopF_eq_nil
          rw [he]
          exact Nat.le_max_right _ _
        rw [hrest, List.flatten_nil, List.append_nil, he,
          seg_eq_drop_of_le (Nat.le_refl _)]
    · rw [if_neg hs]
      simp [List.drop_eq_nil_of_le (Nat.not_lt.mp hs)]

theorem split_text_with_overlap_flatten_nospace {m o : Nat} {t : Str}
    (hm : 0 < m) (hn : ∀ c ∈ t, pyIsSpace c = false) :
    (split_text_with_overlap m o t).flatten = t := by
  unfold split_text_with_overlap
  rw [splitLoopF_flatten_nospace hm hn (t.length + 1) 0 (by omega)]
  rfl

/-! ### Supporting lemmas: BasicChunkingStrategy structure -/

theorem basicPieceChunks_map_index (b : BasicChunkingStrategy) (sec : DocumentSection)
    (d : Str) (k : Nat) (tn ti : Option Str) (n : Nat) :
    ∀ (pieces : List Str) (i : Nat),
      (basicPieceChunks b sec d k tn ti n pieces i).map (fun c => c.metadata.chunk_index) =
        List.range' (k + i) pieces.length := by
  intro pieces
  induction pieces with
  | nil => intro i; rfl
  | cons p rest ih =>
    intro i
    simp only [basicPieceChunks, List.map_cons, List.length_cons, List.range'_succ]
    have h : k + i + 1 = k + (i + 1) := by omega
    rw [ih (i + 1), h]

theorem basicPieceChunks_length (b : BasicChunkingStrategy) (sec : DocumentSection)
    (d : Str) (k : Nat) (tn ti : Option Str) (n : Nat) :
    ∀ (pieces : List Str) (i : Nat),
      (basicPieceChunks b sec d k tn ti n pieces i).length = pieces.length := by
  intro pieces
  induction pieces with
  | nil => intro i; rfl
  | cons p rest ih =>
    intro i
    simp only [basicPieceChunks, List.length_cons, ih (i + 1)]

theorem basicPieceChunks_mem {b : BasicChunkingStrategy} {sec : DocumentSection}
    {d : Str} {k : Nat} {tn ti : Option Str} {n : Nat} :
    ∀ {pieces : List Str} {i : Nat} {c : Chunk},
      c ∈ basicPieceChunks b sec d k tn ti n pieces i →
      c.content ∈ pieces ∧ c.metadata.start_position = 0 ∧
        c.metadata.end_position = c.content.length ∧
        c.metadata.source_tab = tn ∧ c.metadata.source_tab_id = ti := by
  intro pieces
  induction pieces with
  | nil => intro i c hc; simp [basicPieceChunks] at hc
  | cons p rest ih =>
    intro i c hc
    simp only [basicPieceChunks, List.mem_cons] at hc
    rcases hc with h | h
    · rw [h]
      exact ⟨List.mem_cons_self _ _, rfl, rfl, rfl, rfl⟩
    · obtain ⟨h1, h2, h3, h4, h5⟩ := ih h
      exact ⟨List.mem_cons_of_mem _ h1, h2, h3, h4, h5⟩

theorem chunk_section_mem {b : BasicChunkingStrategy} {sec : DocumentSection}
    {d : Str} {k : Nat} {tn ti : Option Str} {c : Chunk}
    (hc : c ∈ b.chunk_section sec d k tn ti) :
    (c.content.length ≤ b.max_chunk_size ∨
      c.content ∈ split_text_with_overlap b.max_chunk_size b.overlap_size sec.get_full_text) ∧
    c.metadata.start_position = 0 ∧ c.metadata.end_position = c.content.length ∧
    c.metadata.source_tab = tn ∧ c.metadata.source_tab_id = ti := by
  simp only [BasicChunkingStrategy.chunk_section] at hc
  by_cases h1 : pyStrip sec.get_full_text = []
  · rw [if_pos h1] at hc
    simp at hc
  · rw [if_neg h1] at hc
    by_cases h2 : sec.get_full_text.length ≤ b.max_chunk_size
    · rw [if_pos h2] at hc
      simp only [List.mem_cons, List.not_mem_nil, or_false] at hc
      rw [hc]
      exact ⟨Or.inl h2, rfl, rfl, rfl, rfl⟩
    · rw [if_neg h2] at hc
      obtain ⟨h1', h2', h3', h4', h5'⟩ := basicPieceChunks_mem hc
      exact ⟨Or.inr h1', h2', h3', h4', h5'⟩

theorem chunk_section_content_le {b : BasicChunkingStrategy} {sec : DocumentSection}
    {d : Str} {k : Nat} {tn ti : Option Str} {c : Chunk}
    (hc : c ∈ b.chunk_section sec d k tn ti) :
    c.content.length ≤ b.max_chunk_size := by
  rcases (chunk_section_mem hc).1 with h | h
  · exact h
  · exact split_text_with_overlap_length_le _ _ _ _ h

theorem chunk_section_map_index (b : BasicChunkingStrategy) (sec : DocumentSection)
    (d : Str) (k : Nat) (tn ti : Option Str) :
    (b.chunk_section sec d k tn ti).map (fun c => c.metadata.chunk_index) =
      List.range' k (b.chunk_section sec d k tn ti).length := by
  simp only [BasicChunkingStrategy.chunk_section]
  by_cases h1 : pyStrip sec.get_full_text = []
  · rw [if_pos h1]; rfl
  · rw [if_neg h1]
    by_cases h2 : sec.get_full_text.length ≤ b.max_chunk_size
    · rw [if_pos h2]; rfl
    · rw [if_neg h2]
      rw [basicPieceChunks_map_index, basicPieceChunks_length, Nat.add_zero]

theorem basicChunkSections_map_index (b : BasicChunkingStrategy) (d : Str) :
    ∀ (secs : List DocumentSection) (k : Nat),
      (basicChunkSections b d secs k).map (fun c => c.metadata.chunk_index) =
        List.range' k (basicChunkSections b d secs k).length := by
  intro secs
  induction secs with
  | nil => intro k; rfl
  | cons s rest ih =>
    intro k
    simp only [basicChunkSections, List.map_append, List.length_append]
    rw [chunk_section_map_index, ih, List.range'_append_1, Nat.add_comm]

theorem basicChunkSections_mem {b : BasicChunkingStrategy} {d : Str} :
    ∀ {secs : List DocumentSection} {k : Nat} {c : Chunk},
      c ∈ basicChunkSections b d secs k →
      ∃ s ∈ secs, ∃ k', c ∈ b.chunk_section s d k' s.tab_title s.tab_id := by
  intro secs
  induction secs with
  | nil => intro k c hc; simp [basicChunkSections] at hc
  | cons s rest ih =>
    intro k c hc
    simp only [basicChunkSections, List.mem_append] at hc
    rcases hc with h | h
    · exact ⟨s, List.mem_cons_self _ _, k, h⟩
    · obtain ⟨s', hs', k', h'⟩ := ih h
      exact ⟨s', List.mem_cons_of_mem _ hs', k', h'⟩

theorem setTotalChunks_map_index (l : List Chunk) :
    (setTotalChunks l).map (fun c => c.metadata.chunk_index) =
      l.map (fun c => c.metadata.chunk_index) := by
  unfold setTotalChunks
  rw [List.map_map]
  rfl

theorem setTotalChunks_mem {l : List Chunk} {c : Chunk} (hc : c ∈ setTotalChunks l) :
    ∃ c' ∈ l, c.content = c'.content ∧
      c.metadata.start_position = c'.metadata.start_position ∧
      c.metadata.end_position = c'.metadata.end_position ∧
      c.metadata.source_tab = c'.metadata.source_tab ∧
      c.metadata.source_tab_id = c'.metadata.source_tab_id := by
  unfold setTotalChunks at hc
  rcases List.mem_map.mp hc with ⟨c', hm, rfl⟩
  exact ⟨c', hm, rfl, rfl, rfl, rfl, rfl⟩

/-! ### Supporting lemmas: substring matching (`contains_question`) -/

theorem leadsWith_iff (p : Str) : ∀ t : Str, leadsWith p t = true ↔ ∃ r, t = p ++ r := by
  induction p with
  | nil =>
    intro t
    simp [leadsWith]
  | cons a as ih =>
    intro t
    cases t with
    | nil =>
      simp [leadsWith]
    | cons b bs =>
      simp only [leadsWith, Bool.and_eq_true, decide_eq_true_eq, ih bs, List.cons_append]
      constructor
      · rintro ⟨rfl, r, rfl⟩
        exact ⟨r, rfl⟩
      · rintro ⟨r, h⟩
        injection h with h1 h2
        exact ⟨h1.symm, r, h2⟩

theorem occursIn_iff (p : Str) : ∀ t : Str, occursIn p t = true ↔ ∃ l r, t = l ++ p ++ r := by
  intro t
  induction t with
  | nil =>
    simp only [occursIn, leadsWith_iff]
    constructor
    · rintro ⟨r, h⟩
      exact ⟨[], r, by simpa using h⟩
    · rintro ⟨l, r, h⟩
      rcases List.append_eq_nil.mp (List.append_eq_nil.mp h.symm).1 with ⟨rfl, rfl⟩
      exact ⟨r, by simpa using h⟩
  | cons c ts ih =>
    simp only [occursIn, Bool.or_eq_true, leadsWith_iff, ih]
    constructor
    · rintro (⟨r, h⟩ | ⟨l, r, rfl⟩)
      · exact ⟨[], r, by simpa using h⟩
      · exact ⟨c :: l, r, rfl⟩
    · rintro ⟨l, r, h⟩
      cases l with
      | nil =>
        left
        exact ⟨r, by simpa using h⟩
      | cons x xs =>
        right
        rw [List.cons_append, List.cons_append] at h
        injection h with h1 h2
        exact ⟨xs, r, h2⟩

/-! ### Supporting lemmas: digit-run parsing -/

theorem digitRunsAux_nil_of_nodigit :
    ∀ {s : Str}, (∀ c ∈ s, isDigitChar c = false) → digitRunsAux [] s = [] := by
  intro s
  induction s with
  | nil => intro _; rfl
  | cons c cs ih =>
    intro h
    simp only [digitRunsAux, h c (by simp)]
    simpa using ih (fun x hx => h x (List.mem_cons_of_mem _ hx))

/-! ### Supporting lemmas: summarization under a failing backend -/

theorem generate_summary_none_of_fail {st : SmartChunkingStrategy}
    (hf : ∀ t n, failResp (st.llm_provider.summarize t n)) (content : Str) :
    st.generate_summary content = none := by
  unfold SmartChunkingStrategy.generate_summary
  have h := hf content 100
  cases hcall : st.llm_provider.summarize content 100 with
  | error e => rfl
  | ok r =>
    rw [hcall] at h
    simp only [failResp] at h
    simp [h]

theorem summaryAssign_id_of_fail {st : SmartChunkingStrategy}
    (hf : ∀ t n, failResp (st.llm_provider.summarize t n)) (c : Chunk) :
    st.summaryAssign c = c := by
  simp only [SmartChunkingStrategy.summaryAssign, generate_summary_none_of_fail hf]
  by_cases h2 : 200 < c.content.length <;> simp [h2]

theorem applySummaries_id_of_fail {st : SmartChunkingStrategy}
    (hf : ∀ t n, failResp (st.llm_provider.summarize t n)) (chunks : List Chunk) :
    st.applySummaries chunks = chunks := by
  unfold SmartChunkingStrategy.applySummaries
  by_cases hu : st.use_summaries
  · rw [if_pos hu, show st.summaryAssign = id from funext (summaryAssign_id_of_fail hf),
      List.map_id]
  · rw [if_neg hu]

theorem smartPieceChunks_mem {sec : DocumentSection} {d : Str} {k : Nat}
    {tn : Option Str} :
    ∀ {pieces : List Str} {i : Nat} {c : Chunk},
      c ∈ smartPieceChunks sec d k tn pieces i →
      c.metadata.source_tab = tn ∧ c.metadata.source_tab_id = none := by
  intro pieces
  induction pieces with
  | nil => intro i c hc; simp [smartPieceChunks] at hc
  | cons p rest ih =>
    intro i c hc
    simp only [smartPieceChunks, List.mem_cons] at hc
    rcases hc with h | h
    · rw [h]; exact ⟨rfl, rfl⟩
    · exact ih h

/-! ### Claim theorems -/

set_option maxRecDepth 4000

/-- C7: for every backend (whose calls may raise or return failure) and
every document, `SmartChunkingStrategy.chunk_document` completes and
returns a chunk list without propagating any exception: the `try:` body
never escapes with an error — every modelled exception source (the two
backend operations) sits behind a local handler — and by the definition
of `chunk_document` an escaped error would return
`BasicChunkingStrategy`'s whole-document result instead. -/
theorem C7_thm (st : SmartChunkingStrategy) (doc : ParsedDocument) :
    ∃ chunks, st.chunk_document_body doc = Except.ok chunks ∧
      st.chunk_document doc = chunks :=
  ⟨_, rfl, rfl⟩

/-- C3 (amended): `BasicChunkingStrategy.chunk_document` assigns
`chunk_index` values `0, 1, …, n-1` in list order — unique per chunk and
produced by a single monotonically-increasing counter.  (The claim's
assertion for `SmartChunkingStrategy` is refuted by `C3_cex`.) -/
theorem C3_thm (b : BasicChunkingStrategy) (doc : ParsedDocument) :
    (b.chunk_document doc).map (fun c => c.metadata.chunk_index) =
      List.range (b.chunk_document doc).length := by
  unfold BasicChunkingStrategy.chunk_document
  rw [setTotalChunks_map_index, basicChunkSections_map_index, List.range_eq_range']
  congr 1
  unfold setTotalChunks
  simp

/-- C3 counterexample: a document with two short sections, chunked by
`SmartChunkingStrategy` (any backend — here one that always raises),
yields two chunks both carrying `chunk_index = 0`: the smart path derives
each section's starting index from `cumulative content length // 1000`,
which repeats. -/
theorem C3_cex :
    (SmartChunkingStrategy.chunk_document smartFailDefault docHello2).map
      (fun c => c.metadata.chunk_index) = [0, 0] := by
  decide

/-- C6 (amended): every chunk produced by `BasicChunkingStrategy` has
content length at most `max_chunk_size`, with no exception — the
boundary search only ever moves the cut earlier, so even an unspaced run
longer than `max_chunk_size` is split mid-token into pieces of at most
`max_chunk_size` (see `C6_cex`), never emitted as a single oversized
chunk.  (`max_chunk_size = 0` would make the source loop forever, hence
the positivity hypothesis.) -/
theorem C6_thm (b : BasicChunkingStrategy) (doc : ParsedDocument)
    (hm : 0 < b.max_chunk_size) :
    ∀ c ∈ b.chunk_document doc, c.content.length ≤ b.max_chunk_size := by
  intro c hc
  unfold BasicChunkingStrategy.chunk_document at hc
  obtain ⟨c', hc', hcontent, _⟩ := setTotalChunks_mem hc
  obtain ⟨s, _, k', hmem⟩ := basicChunkSections_mem hc'
  rw [hcontent]
  exact chunk_section_content_le hmem

/-- C6 counterexample to the claim's exception clause: an unspaced run of
10 characters with `max_chunk_size = 4` is split into three chunks, each
of length at most 4 — not a single chunk larger than `max_chunk_size`. -/
theorem C6_cex :
    split_text_with_overlap 4 1 (strL "aaaaaaaaaa") =
      [strL "aaaa", strL "aaaa", strL "aa"] ∧
    (split_text_with_overlap 4 1 (strL "aaaaaaaaaa")).all
      (fun p => p.length ≤ 4) = true := by
  exact ⟨by decide, by decide⟩

theorem C6_wit :
    0 < basic4.max_chunk_size ∧
      ((basic4.chunk_document docA10).getD 0 chunkDflt).content.length ≤
        basic4.max_chunk_size :=
  ⟨by decide, C6_thm basic4 docA10 (by decide) _ (by decide)⟩

/-- C8: every chunk produced by `BasicChunkingStrategy` carries
`start_position = 0` and `end_position = len(content)` (so
`end_position - start_position` equals the content length), and in
particular the 11-character section text "Hello world" with the default
`max_chunk_size = 1000` yields exactly one chunk with
`start_position = 0`, `end_position = 11`, and
`overlap_before = overlap_after = 0`. -/
theorem C8_thm :
    (∀ (b : BasicChunkingStrategy) (doc : ParsedDocument),
      ∀ c ∈ b.chunk_document doc,
        c.metadata.start_position = 0 ∧
          c.metadata.end_position = c.content.length) ∧
    ((basicDefault.chunk_document docHelloWorld).length = 1 ∧
      ((basicDefault.chunk_document docHelloWorld).getD 0 chunkDflt).metadata.start_position = 0 ∧
      ((basicDefault.chunk_document docHelloWorld).getD 0 chunkDflt).metadata.end_position = 11 ∧
      ((basicDefault.chunk_document docHelloWorld).getD 0 chunkDflt).metadata.overlap_before = 0 ∧
      ((basicDefault.chunk_document docHelloWorld).getD 0 chunkDflt).metadata.overlap_after = 0) := by
  constructor
  · intro b doc c hc
    unfold BasicChunkingStrategy.chunk_document at hc
    obtain ⟨c', hc', hcontent, hstart, hend, _, _⟩ := setTotalChunks_mem hc
    obtain ⟨s, _, k', hmem⟩ := basicChunkSections_mem hc'
    obtain ⟨_, h2, h3, _, _⟩ := chunk_section_mem hmem
    exact ⟨by rw [hstart, h2], by rw [hend, h3, hcontent]⟩
  · exact ⟨by decide, by decide, by decide, by decide, by decide⟩

theorem C8_wit :
    ((basicDefault.chunk_document docHelloWorld).getD 0 chunkDflt).metadata.start_position = 0 ∧
    ((basicDefault.chunk_document docHelloWorld).getD 0 chunkDflt).metadata.end_position =
      ((basicDefault.chunk_document docHelloWorld).getD 0 chunkDflt).content.length :=
  C8_thm.1 basicDefault docHelloWorld _ (by decide)

/-- C2 (amended): for a text containing no whitespace, the ordered
concatenation of the chunks produced by `_split_text_with_overlap`
reconstructs the text exactly — with nothing removed: the cursor update
`start = max(start + max_chunk_size - overlap_size, end)` never moves
`start` below `end`, so consecutive chunks never actually share
characters and the declared overlap regions are not duplicated text (see
`C2_cex`). -/
theorem C2_thm (m o : Nat) (t : Str) (hm : 0 < m)
    (hn : ∀ c ∈ t, pyIsSpace c = false) :
    (split_text_with_overlap m o t).flatten = t :=
  split_text_with_overlap_flatten_nospace hm hn

/-- C2 counterexample: removing the declared overlap regions loses
characters (the splitter never duplicates them), and with whitespace
present the trimming at a word-boundary cut also loses characters even
without removing overlaps. -/
theorem C2_cex :
    reconcatOverlap 1 (split_text_with_overlap 4 1 (strL "aaaaaa")) ≠ strL "aaaaaa" ∧
    (split_text_with_overlap 4 1 (strL "abc de")).flatten ≠ strL "abc de" := by
  exact ⟨by decide, by decide⟩

theorem C2_wit :
    (split_text_with_overlap 4 1 (strL "abcdefgh")).flatten = strL "abcdefgh" :=
  C2_thm 4 1 (strL "abcdefgh") (by decide) (by decide)

theorem contains_char_iff (t : Str) (a : Char) : t.contains a = true ↔ a ∈ t := by
  unfold List.contains
  exact List.elem_iff

/-- C5 (amended): `contains_question(text)` is true iff the text contains
`?` or one of the keywords {what, how, why, when, where, who} occurs as a
case-insensitive substring — not necessarily as a whole word: the source
uses `re.search` over an unanchored alternation, so a keyword embedded in
an unrelated word (e.g. "somewhat") also matches (see `C5_cex`). -/
theorem C5_thm (text : Str) :
    contains_question text = true ↔
      ('?' ∈ text ∨ ∃ k ∈ questionKeywords, ∃ l r, pyLower text = l ++ k ++ r) := by
  unfold contains_question
  rw [Bool.or_eq_true, contains_char_iff, List.any_eq_true]
  constructor
  · rintro (h | ⟨k, hk, hocc⟩)
    · exact Or.inl h
    · exact Or.inr ⟨k, hk, (occursIn_iff k (pyLower text)).mp hocc⟩
  · rintro (h | ⟨k, hk, hdec⟩)
    · exact Or.inl h
    · exact Or.inr ⟨k, hk, (occursIn_iff k (pyLower text)).mpr hdec⟩

/-- C5 counterexample: "somewhat" contains no `?` and contains the
keyword "what" only embedded inside an unrelated word, yet
`_contains_question` returns true — the claim predicts false. -/
theorem C5_cex :
    contains_question (strL "somewhat") = true ∧ '?' ∉ strL "somewhat" := by
  exact ⟨by decide, by decide⟩

/-- C4 (amended): when the backend call returns a successful response
with truthy content that contains no digit run, `_find_semantic_breaks`
returns the empty list — the parse result is final and the
paragraph-break fallback is not consulted (it runs only on a raised
exception or a non-success/falsy-content response; see `C4_cex`). -/
theorem C4_thm (st : SmartChunkingStrategy) (text : Str) (r : LLMResponse)
    (hcall : st.llm_provider.generate_response
      (semanticBreakPrompt st.max_chunk_size text) = Except.ok r)
    (hsucc : r.success = true) (htruthy : contentTruthy r.content = true)
    (hnodigit : ∀ c ∈ optStr r.content, isDigitChar c = false) :
    st.find_semantic_breaks text = [] := by
  unfold SmartChunkingStrategy.find_semantic_breaks
  rw [hcall]
  simp only [hsucc, htruthy, Bool.and_self, if_true]
  unfold digitRuns
  rw [digitRunsAux_nil_of_nodigit hnodigit]
  rfl

/-- C4 counterexample: on the text "a\n\nb" (one blank line, paragraph
break at offset 1) a successful digit-free response makes
`_find_semantic_breaks` return `[]`, not the paragraph-break offsets
`[1]` the claim requires. -/
theorem C4_cex :
    SmartChunkingStrategy.find_semantic_breaks smartNoDigit (strL "a\n\nb") = [] ∧
    find_paragraph_breaks (strL "a\n\nb") = [1] := by
  exact ⟨by decide, by decide⟩

theorem C4_wit :
    SmartChunkingStrategy.find_semantic_breaks smartNoDigit (strL "hello world") = [] :=
  C4_thm smartNoDigit (strL "hello world") _ rfl rfl (by decide) (by decide)

theorem generate_summary_eq_some_iff {st : SmartChunkingStrategy} {content s : Str} :
    st.generate_summary content = some s ↔
      ∃ r, st.llm_provider.summarize content 100 = Except.ok r ∧ r.success = true ∧
        contentTruthy r.content = true ∧ s = pyStrip (optStr r.content) := by
  unfold SmartChunkingStrategy.generate_summary
  cases hcall : st.llm_provider.summarize content 100 with
  | error e => simp
  | ok r =>
    dsimp only
    by_cases hc : (r.success && contentTruthy r.content) = true
    · rw [if_pos hc]
      rw [Bool.and_eq_true] at hc
      simp only [Option.some.injEq]
      constructor
      · intro h
        exact ⟨r, rfl, hc.1, hc.2, h.symm⟩
      · rintro ⟨r', hr', _, _, hs⟩
        injection hr' with hr'
        rw [hs, hr']
    · rw [if_neg hc]
      rw [Bool.and_eq_true] at hc
      constructor
      · intro h
        exact absurd h (by simp)
      · rintro ⟨r', hr', hs', ht', _⟩
        injection hr' with hr'
        rw [← hr'] at hs' ht'
        exact absurd ⟨hs', ht'⟩ hc

theorem pyStrip_ne_nil_truthy {o : Option Str} (h : pyStrip (optStr o) ≠ []) :
    contentTruthy o = true := by
  cases o with
  | none => simp [optStr, pyStrip] at h
  | some s =>
    cases s with
    | nil => simp [optStr, pyStrip] at h
    | cons c cs => rfl

/-- C9 (amended): with `use_summaries` enabled, a chunk's summary is set
iff its content length exceeds 200, the backend summarize call succeeds,
and the response content is non-empty *after trimming* — in which case
the summary is the trimmed response.  A chunk of length at most 200, any
summarization failure, and also a successful response whose content is
whitespace-only (trimmed to the falsy empty string — see `C9_cex`) all
leave the summary absent; no error is raised. -/
theorem C9_thm (st : SmartChunkingStrategy) (c : Chunk)
    (hu : st.use_summaries = true) (hsum : c.summary = none) :
    st.applySummaries [c] = [st.summaryAssign c] ∧
    ((st.summaryAssign c).summary.isSome = true ↔
      (200 < c.content.length ∧
        ∃ r, st.llm_provider.summarize c.content 100 = Except.ok r ∧
          r.success = true ∧ pyStrip (optStr r.content) ≠ [])) ∧
    (∀ r, st.llm_provider.summarize c.content 100 = Except.ok r → r.success = true →
      pyStrip (optStr r.content) ≠ [] → 200 < c.content.length →
      (st.summaryAssign c).summary = some (pyStrip (optStr r.content))) := by
  refine ⟨by simp [SmartChunkingStrategy.applySummaries, hu], ?_, ?_⟩
  · by_cases hlen : 200 < c.content.length
    · simp only [SmartChunkingStrategy.summaryAssign, if_pos hlen]
      cases hgen : st.generate_summary c.content with
      | none =>
        dsimp only
        rw [hsum]
        constructor
        · intro h
          exact absurd h (by simp)
        · rintro ⟨_, r, hr, hs', hne⟩
          have h2 := generate_summary_eq_some_iff.mpr
            ⟨r, hr, hs', pyStrip_ne_nil_truthy hne, rfl⟩
          rw [hgen] at h2
          exact absurd h2 (by simp)
      | some s =>
        dsimp only
        obtain ⟨r, hr, hs', ht', hval⟩ := generate_summary_eq_some_iff.mp hgen
        by_cases hz : s = []
        · rw [if_pos hz, hsum]
          constructor
          · intro h
            exact absurd h (by simp)
          · rintro ⟨_, r', hr', _, hne⟩
            injection hr.symm.trans hr' with hrr
            rw [← hrr, ← hval, hz] at hne
            exact absurd rfl hne
        · rw [if_neg hz]
          simp only [Option.isSome_some, true_iff]
          exact ⟨hlen, r, hr, hs', by rw [← hval]; exact hz⟩
    · simp only [SmartChunkingStrategy.summaryAssign, if_neg hlen]
      rw [hsum]
      constructor
      · intro h
        exact absurd h (by simp)
      · rintro ⟨h, _⟩
        exact absurd h hlen
  · intro r hr hs' hne hlen
    simp only [SmartChunkingStrategy.summaryAssign, if_pos hlen]
    have hgen : st.generate_summary c.content = some (pyStrip (optStr r.content)) :=
      generate_summary_eq_some_iff.mpr ⟨r, hr, hs', pyStrip_ne_nil_truthy hne, rfl⟩
    rw [hgen]
    dsimp only
    rw [if_neg hne]

/-- C9 counterexample: a 201-character chunk and a backend whose
summarize call succeeds with the non-empty content " " (one space): the
claim's iff demands the summary be set, but the source trims the content
to the falsy empty string and leaves the summary absent. -/
theorem C9_cex :
    (SmartChunkingStrategy.applySummaries smartWS [chunk201]).map (fun c => c.summary) =
      [none] ∧
    200 < chunk201.content.length ∧
    wsSummaryProvider.summarize chunk201.content 100 =
      Except.ok { success := true, content := some (strL " ") } := by
  exact ⟨by decide, by decide, rfl⟩

theorem C9_wit :
    (SmartChunkingStrategy.summaryAssign smartOK chunk201).summary =
      some (pyStrip (optStr (some (strL " A summary. ")))) :=
  (C9_thm smartOK chunk201 rfl rfl).2.2 _ rfl rfl (by decide) (by decide)

/-- C10 (amended): `BasicChunkingStrategy._chunk_section` copies both
`source_tab` and `source_tab_id` from its arguments (the callers pass the
section's `tab_title`/`tab_id`), so they are absent only when the section
has none; `SmartChunkingStrategy._chunk_section_semantically`, on its
semantic path (section text longer than `max_chunk_size`), copies
`source_tab` but omits `source_tab_id` from the metadata constructor
call, so `source_tab_id` is always absent there even when the section
carries a tab id (see `C10_cex`). -/
theorem C10_thm :
    (∀ (b : BasicChunkingStrategy) (sec : DocumentSection) (d : Str) (k : Nat)
        (tn ti : Option Str), ∀ c ∈ b.chunk_section sec d k tn ti,
        c.metadata.source_tab = tn ∧ c.metadata.source_tab_id = ti) ∧
    (∀ (st : SmartChunkingStrategy) (sec : DocumentSection) (d : Str) (k : Nat)
        (tn ti : Option Str), st.max_chunk_size < sec.get_full_text.length →
        ∀ c ∈ st.chunk_section_semantically sec d k tn ti,
        c.metadata.source_tab = tn ∧ c.metadata.source_tab_id = none) := by
  constructor
  · intro b sec d k tn ti c hc
    obtain ⟨_, _, _, h4, h5⟩ := chunk_section_mem hc
    exact ⟨h4, h5⟩
  · intro st sec d k tn ti hbig c hc
    simp only [SmartChunkingStrategy.chunk_section_semantically] at hc
    by_cases h1 : pyStrip sec.get_full_text = []
    · rw [if_pos h1] at hc
      simp at hc
    · rw [if_neg h1,
        if_neg (by omega : ¬sec.get_full_text.length ≤ st.max_chunk_size)] at hc
      exact smartPieceChunks_mem hc

/-- C10 counterexample: a section carrying `tab_id = some "T1"` whose
text exceeds `max_chunk_size`: every chunk the smart strategy produces
for it has `source_tab_id` absent. -/
theorem C10_cex :
    (SmartChunkingStrategy.chunk_document smartFail4 docA10).map
      (fun c => c.metadata.source_tab_id) = [none, none, none] ∧
    secA10.tab_id = some (strL "T1") := by
  exact ⟨by decide, rfl⟩

theorem C10_wit :
    ((basic4.chunk_section secA10 (strL "doc") 0 secA10.tab_title secA10.tab_id).getD 0
        chunkDflt).metadata.source_tab_id = secA10.tab_id ∧
    ((SmartChunkingStrategy.chunk_section_semantically smartFail4 secA10 (strL "doc") 0
        secA10.tab_title secA10.tab_id).getD 0 chunkDflt).metadata.source_tab_id = none :=
  ⟨(C10_thm.1 basic4 secA10 (strL "doc") 0 secA10.tab_title secA10.tab_id _ (by decide)).2,
   (C10_thm.2 smartFail4 secA10 (strL "doc") 0 secA10.tab_title secA10.tab_id (by decide) _
     (by decide)).2⟩

/-- C1 (amended): feeding `SmartChunkingStrategy` a backend that fails
(raises or reports non-success) on every call reproduces
`BasicChunkingStrategy`'s output for documents of a single section whose
text fits within `max_chunk_size`: the smart path then delegates the
section to the basic per-section splitter with starting index 0 and the
failed summarization leaves every chunk untouched.  (For larger sections
the outputs differ — `C1_cex` — because the semantic path drops
`source_tab_id`, sets no overlap metadata, and paragraph-break fallback
need not reproduce size-based boundaries.) -/
theorem C1_thm (m o : Nat) (us : Bool) (prov : LLMProvider)
    (sec : DocumentSection) (docId : Str)
    (hg : ∀ p, failResp (prov.generate_response p))
    (hs : ∀ t n, failResp (prov.summarize t n))
    (hsmall : sec.get_full_text.length ≤ m) :
    SmartChunkingStrategy.chunk_document ⟨prov, m, o, us⟩ ⟨docId, [sec]⟩ =
      BasicChunkingStrategy.chunk_document ⟨m, o, true⟩ ⟨docId, [sec]⟩ := by
  have hL : SmartChunkingStrategy.chunk_document ⟨prov, m, o, us⟩ ⟨docId, [sec]⟩ =
      setTotalChunks ((⟨prov, m, o, us⟩ : SmartChunkingStrategy).applySummaries
        (SmartChunkingStrategy.chunk_section_semantically ⟨prov, m, o, us⟩ sec docId
          (0 / 1000) sec.tab_title sec.tab_id ++ [])) := rfl
  rw [hL, applySummaries_id_of_fail hs, List.append_nil]
  unfold BasicChunkingStrategy.chunk_document
  simp only [basicChunkSections, List.append_nil]
  congr 1
  rw [Nat.zero_div]
  simp only [SmartChunkingStrategy.chunk_section_semantically]
  by_cases h1 : pyStrip sec.get_full_text = []
  · rw [if_pos h1]
    unfold BasicChunkingStrategy.chunk_section
    rw [if_pos h1]
  · rw [if_neg h1, if_pos hsmall]
    rfl

theorem C1_wit :
    SmartChunkingStrategy.chunk_document ⟨constFailProvider, 1000, 100, true⟩
        ⟨strL "doc1", [secHelloWorld]⟩ =
      BasicChunkingStrategy.chunk_document ⟨1000, 100, true⟩ ⟨strL "doc1", [secHelloWorld]⟩ :=
  C1_thm 1000 100 true constFailProvider secHelloWorld (strL "doc1")
    (fun _ => trivial) (fun _ _ => trivial) (by decide)

/-- C1 counterexample: a single 10-character unspaced section with
`max_chunk_size = 4` and an always-raising backend: the two strategies
produce different chunk lists (same contents, but the basic strategy
records `overlap_before`/`overlap_after` and `source_tab_id` while the
smart semantic path does not). -/
theorem C1_cex :
    SmartChunkingStrategy.chunk_document smartFail4 docA10 ≠
      BasicChunkingStrategy.chunk_document basic4 docA10 := by
  decide

end DocQA
